import Mathlib

/-!
Shallow embedding of `flang/runtime/inquiry.cpp` (the Fortran runtime's
LBOUND / UBOUND / SIZE / SHAPE inquiry entry points) and proofs of the
specification's claims about it.

Modelling conventions:
* Machine integers (`std::int64_t`, `SubscriptValue`) are modelled as `Int`;
  where the code narrows a value to a smaller signed width, the reduction is
  made explicit through `wrapInt`.
* `Terminator::Crash` and `INTERNAL_CHECK` failures never return, so every
  entry point that can crash returns `Except Crash _`; the `Crash` payload
  records the values formatted into the diagnostic message.
* Descriptors are reached through a `Heap` of descriptor objects indexed by
  handles, so that aliasing between the `result` and `array` reference
  arguments of `Ubound` is expressible and the read-only treatment of the
  input descriptor is a provable fact rather than a typing artifact.
* The external allocator (`Descriptor::Allocate`) is a collaborator outside
  this core; its observable behavior is a status code and the fresh backing
  storage, passed in as the parameters `allocStat` and `allocContents`.
-/

namespace Fortran.runtime

/-- A caller source location `(sourceFile, line)`; per the spec it is used
purely for diagnostics. -/
structure SourceLocation where
  sourceFile : String
  line : Int
  deriving DecidableEq

/-- A fatal process termination (`Terminator::Crash`, or a failed
`INTERNAL_CHECK`).  The payload of each constructor records the values that
the corresponding diagnostic message formats. -/
inductive Crash where
  | badDim (loc : SourceLocation) (dim : Int) (rank : Nat)
  | allocFail (loc : SourceLocation) (stat : Int)
  | unsupportedKind (loc : SourceLocation) (kind : Int)
  | checkFail (loc : SourceLocation)
  deriving DecidableEq

/-- Two's-complement reduction of an integer to `bits` bits: the unique value
congruent to `v` modulo `2 ^ bits` that lies in `[-2^(bits-1), 2^(bits-1))`.
This is what a C++ store of an `std::int64_t` into a narrower signed integer
element performs (modular conversion to the destination type). -/
def wrapInt (bits : Nat) (v : Int) : Int :=
  (v + 2 ^ (bits - 1)) % 2 ^ bits - 2 ^ (bits - 1)

/-- One axis of a descriptor (class `Dimension` of
`flang/Runtime/descriptor.h`, an external collaborator of this core): a
signed lower bound and a non-negative extent, both `SubscriptValue`
(64-bit signed) in the source. -/
structure Dimension where
  lowerBound : Int
  extent : Int
  deriving DecidableEq

/-- `Dimension::LowerBound()`. -/
def Dimension.LowerBound (d : Dimension) : Int := d.lowerBound

/-- `Dimension::Extent()`. -/
def Dimension.Extent (d : Dimension) : Int := d.extent

/-- `Dimension::UpperBound()`: lower bound plus extent minus one (so a
zero-extent axis has upper bound `lower - 1`). -/
def Dimension.UpperBound (d : Dimension) : Int := d.lowerBound + d.extent - 1

/-- Modelled from the spec: the descriptor's mutable per-axis bound setter
(`Dimension::SetBounds`, descriptor.h, outside src/), used only while
building the brand-new result descriptor of `Ubound`: it sets the lower
bound and derives the extent from the upper bound.  In this core it is only
ever invoked as `SetBounds 1 rank` with `rank ≥ 0`, where this arithmetic
form agrees with the source. -/
def Dimension.SetBounds (lower upper : Int) : Dimension :=
  ⟨lower, upper - lower + 1⟩

/-- An array descriptor (external collaborator, spec section 3): per-axis
metadata, the backing element storage viewed as decoded integer element
values, and its allocation state. -/
structure Descriptor where
  dims : List Dimension
  data : Nat → Int
  allocated : Bool

/-- `Descriptor::rank()`. -/
def Descriptor.rank (d : Descriptor) : Nat := d.dims.length

/-- `Descriptor::GetDimension(i)` for `0 ≤ i < rank`. -/
def Descriptor.GetDimension (d : Descriptor) (i : Nat) : Dimension :=
  d.dims.getD i ⟨0, 0⟩

/-- The store of descriptor objects.  Entry points receive descriptors by
reference, so aliasing between the `result` and `array` arguments of
`Ubound` is expressible: both are handles into the same heap. -/
abbrev Heap := Nat → Descriptor

/-- Modelled from the spec: `common::maxRank`, the compile-time bound on the
rank of any descriptor (15 in flang). -/
def maxRank : Nat := 15

/-- `RawStoreIntegerAt<KIND>` (inquiry.cpp): reinterprets a raw buffer as a
contiguous array of KIND-byte signed integers and assigns `value` to element
`i`; the assignment narrows the 64-bit `value` to the element width, i.e.
performs a two's-complement modular reduction.  The raw buffer is modelled
as the sequence of decoded element values. -/
def RawStoreIntegerAt (KIND : Int) (contiguousIntegerArray : Nat → Int)
    (i : Nat) (value : Int) : Nat → Int :=
  fun j => if j = i then wrapInt (8 * KIND).toNat value else contiguousIntegerArray j

/-- Modelled from the spec: `StoreIntegerAt<KIND>` (tools.h, outside src/):
stores `value` into element `i` of a descriptor's backing storage at the
KIND-byte signed integer width (same narrowing store as
`RawStoreIntegerAt`, addressed through the descriptor). -/
def StoreIntegerAt (KIND : Int) (result : Descriptor) (i : Nat) (value : Int) : Descriptor :=
  { result with data := fun j => if j = i then wrapInt (8 * KIND).toNat value else result.data j }

/-- Modelled from the spec: `ApplyIntegerKind` (tools.h, outside src/), the
kind-polymorphic dispatch: a closed switch over the supported integer kinds
1, 2, 4, 8, 16 instantiating the given store functor at the selected kind;
any other kind tag crashes through the terminator ("not yet implemented:
INTEGER(KIND=...)"). -/
def ApplyIntegerKind {α : Type} (kind : Int) (loc : SourceLocation) (f : Int → α) :
    Except Crash α :=
  if kind = 1 ∨ kind = 2 ∨ kind = 4 ∨ kind = 8 ∨ kind = 16 then .ok (f kind)
  else .error (.unsupportedKind loc kind)

/-- The `__FILE__`/`__LINE__` terminator location that `RTNAME(Shape)`
constructs internally (it takes no caller source location). -/
def shapeTerminatorLoc : SourceLocation := ⟨"flang/runtime/inquiry.cpp", 89⟩

/-- The internal location reported by the `INTERNAL_CHECK` in
`RTNAME(Ubound)`. -/
def inquiryCheckLoc : SourceLocation := ⟨"flang/runtime/inquiry.cpp", 60⟩

/-- `RTNAME(LboundDim)`: crash if `dim < 1 || dim > array.rank()`, reporting
`dim` and the rank; otherwise return the lower bound of dimension `dim - 1`
(the `static_cast<std::int64_t>` is the identity here since lower bounds are
already 64-bit values). -/
def LboundDim (h : Heap) (array : Nat) (dim : Int)
    (sourceFile : String) (line : Int) : Except Crash Int × Heap :=
  if dim < 1 ∨ dim > ((h array).rank : Int) then
    (.error (.badDim ⟨sourceFile, line⟩ dim (h array).rank), h)
  else
    (.ok (((h array).GetDimension (dim - 1).toNat).LowerBound), h)

/-- `RTNAME(Size)`: `std::int64_t result{1}`, then `result *= Extent()` over
every dimension.  The 64-bit accumulation is modelled as two's-complement
wraparound (the C++ source relies on `std::int64_t` arithmetic; the spec
leaves the overflow policy unspecified). -/
def Size (h : Heap) (array : Nat) (sourceFile : String) (line : Int) : Int × Heap :=
  ((h array).dims.foldl (fun result dimension => wrapInt 64 (result * dimension.Extent)) 1, h)

/-- `RTNAME(SizeDim)`: crash if `dim < 1 || dim > array.rank()`, reporting
`dim` and the rank; otherwise return the extent of dimension `dim - 1`. -/
def SizeDim (h : Heap) (array : Nat) (dim : Int)
    (sourceFile : String) (line : Int) : Except Crash Int × Heap :=
  if dim < 1 ∨ dim > ((h array).rank : Int) then
    (.error (.badDim ⟨sourceFile, line⟩ dim (h array).rank), h)
  else
    (.ok (((h array).GetDimension (dim - 1).toNat).Extent), h)

/-- The store loop of `RTNAME(Ubound)`:
`for (i = 0; i < array.rank(); ++i) storeIntegerAt(i, UpperBound(i))`.
Each iteration re-reads `array` through the current heap (faithful under
aliasing of `result` and `array`); the store dispatches through
`ApplyIntegerKind` and writes back the updated `result` object.  `fuel` is
the remaining trip count, always supplied so that the loop guard, which is
re-checked every iteration, is what actually ends the loop. -/
def uboundLoop (kind : Int) (loc : SourceLocation) (result array : Nat)
    (i : Nat) (fuel : Nat) (h : Heap) : Except Crash Heap :=
  match fuel with
  | 0 => .ok h
  | fuel' + 1 =>
    if i < (h array).rank then
      match ApplyIntegerKind kind loc
          (fun k => StoreIntegerAt k (h result) i (((h array).GetDimension i).UpperBound)) with
      | .error e => .error e
      | .ok desc =>
        uboundLoop kind loc result array (i + 1) fuel' (fun n => if n = result then desc else h n)
    else .ok h

/-- Sequencing of the store loop's outcome back into the entry point's
result: a crash propagates (leaving the heap as it was at the crash), a
completed loop yields the final heap. -/
def uboundFinish (r : Except Crash Heap) (h3 : Heap) : Except Crash Unit × Heap :=
  match r with
  | .error e => (.error e, h3)
  | .ok h4 => (.ok (), h4)

/-- The heap after `SubscriptValue extent[1]{array.rank()}` and
`result.Establish(TypeCategory::Integer, kind, nullptr, 1, extent,
CFI_attribute_allocatable)` (Establish is modelled from the spec: it
initializes the single axis of the rank-1 descriptor with lower bound 1 and
the given extent, storage not yet allocated). -/
def uboundEstablish (h : Heap) (result array : Nat) : Heap :=
  fun n => if n = result then ⟨[⟨1, ((h array).rank : Int)⟩], (h result).data, false⟩ else h n

/-- The heap after `result.GetDimension(0).SetBounds(1, array.rank())`;
`array.rank()` is re-read from the post-establish heap, which matters if
`result` and `array` alias. -/
def uboundSetBounds (h : Heap) (result array : Nat) : Heap :=
  let h1 := uboundEstablish h result array
  fun n =>
    if n = result then { h1 result with dims := [Dimension.SetBounds 1 ((h1 array).rank : Int)] }
    else h1 n

/-- The heap after a successful `result.Allocate()`: the external allocator
installs the fresh (uninitialized) backing storage `allocContents`. -/
def uboundAllocate (h2 : Heap) (result : Nat) (allocContents : Nat → Int) : Heap :=
  fun n => if n = result then { h2 result with data := allocContents, allocated := true } else h2 n

/-- `RTNAME(Ubound)`:
1. establish the rank-1 result descriptor with extent `array.rank()`
   (`uboundEstablish`);
2. `result.GetDimension(0).SetBounds(1, array.rank())` (`uboundSetBounds`);
3. `result.Allocate()` — returns `allocStat` and, on success, installs the
   fresh storage `allocContents`; a non-zero status is fatal, reported with
   that status;
4. `INTERNAL_CHECK(result.rank() == 1)`;
5. the store loop `uboundLoop`. -/
def Ubound (h : Heap) (result array : Nat) (kind : Int)
    (sourceFile : String) (line : Int)
    (allocStat : Int) (allocContents : Nat → Int) : Except Crash Unit × Heap :=
  let h2 := uboundSetBounds h result array
  if allocStat ≠ 0 then
    (.error (.allocFail ⟨sourceFile, line⟩ allocStat), h2)
  else
    let h3 := uboundAllocate h2 result allocContents
    if (h3 result).rank = 1 then
      uboundFinish (uboundLoop kind ⟨sourceFile, line⟩ result array 0 ((h3 array).rank) h3) h3
    else (.error (.checkFail inquiryCheckLoc), h3)

/-- The store loop of `RTNAME(Shape)`: for each axis `i < array.rank()`,
store that axis's extent into the caller-supplied raw buffer through the
`RawStoreIntegerAt` dispatch. -/
def shapeLoop (kind : Int) (h : Heap) (array : Nat) (buf : Nat → Int)
    (i : Nat) (fuel : Nat) : Except Crash (Nat → Int) :=
  match fuel with
  | 0 => .ok buf
  | fuel' + 1 =>
    if i < (h array).rank then
      match ApplyIntegerKind kind shapeTerminatorLoc
          (fun k => RawStoreIntegerAt k buf i (((h array).GetDimension i).Extent)) with
      | .error e => .error e
      | .ok buf' => shapeLoop kind h array buf' (i + 1) fuel'
    else .ok buf

/-- `RTNAME(Shape)`: constructs an internal terminator, checks
`INTERNAL_CHECK(array.rank() <= maxRank)`, then writes each extent into the
caller-owned buffer.  It touches no descriptor and performs no allocation,
so the heap is returned as received. -/
def Shape (resultBuf : Nat → Int) (h : Heap) (array : Nat) (kind : Int) :
    Except Crash (Nat → Int) × Heap :=
  if (h array).rank ≤ maxRank then
    (shapeLoop kind h array resultBuf 0 ((h array).rank), h)
  else
    (.error (.checkFail shapeTerminatorLoc), h)

/-- The success value of a fallible computation, `none` on a crash. -/
def exceptOk {ε α : Type} : Except ε α → Option α
  | .ok a => some a
  | .error _ => none

/-- Element `j` of a possibly-crashed buffer result. -/
def bufAt (r : Except Crash (Nat → Int)) (j : Nat) : Option Int :=
  match r with
  | .ok b => some (b j)
  | .error _ => none

/-- The spec's concrete rank-2 scenario: axis 1 has lower bound 1 and
extent 5, axis 2 has lower bound 0 and extent 3. -/
def wDesc : Descriptor := ⟨[⟨1, 5⟩, ⟨0, 3⟩], fun _ => 0, true⟩

/-- A rank-0 descriptor object used as the default heap content. -/
def emptyDesc : Descriptor := ⟨[], fun _ => 0, false⟩

/-- Heap with the spec's rank-2 scenario array at handle 0. -/
def wHeap : Heap := fun n => if n = 0 then wDesc else emptyDesc

/-- Rank-1 descriptor with lower bound 1000 and extent 5 (upper bound
1004, which does not fit a 1-byte integer element). -/
def cexDesc1 : Descriptor := ⟨[⟨1000, 5⟩], fun _ => 0, true⟩

/-- Heap with `cexDesc1` at handle 0. -/
def cexHeap1 : Heap := fun n => if n = 0 then cexDesc1 else emptyDesc

/-- Rank-1 descriptor with extent 300 (which does not fit a 1-byte integer
element). -/
def cexDesc2 : Descriptor := ⟨[⟨1, 300⟩], fun _ => 0, true⟩

/-- Heap with `cexDesc2` at handle 0. -/
def cexHeap2 : Heap := fun n => if n = 0 then cexDesc2 else emptyDesc

/-! ### Arithmetic facts about the two's-complement reduction -/

/-- `wrapInt bits v` is congruent to `v` modulo `2 ^ bits`. -/
theorem wrapInt_modEq (bits : Nat) (v : Int) :
    wrapInt bits v ≡ v [ZMOD (2 : Int) ^ bits] := by
  have h1 : (v + 2 ^ (bits - 1)) % (2 : Int) ^ bits ≡ v + 2 ^ (bits - 1) [ZMOD (2 : Int) ^ bits] :=
    Int.emod_emod_of_dvd _ dvd_rfl
  have h2 := h1.sub_right ((2 : Int) ^ (bits - 1))
  simpa [wrapInt] using h2

/-- `wrapInt` depends only on the residue of its argument. -/
theorem wrapInt_congr {bits : Nat} {v w : Int} (h : v ≡ w [ZMOD (2 : Int) ^ bits]) :
    wrapInt bits v = wrapInt bits w := by
  have h2 : (v + 2 ^ (bits - 1)) % (2 : Int) ^ bits = (w + 2 ^ (bits - 1)) % (2 : Int) ^ bits :=
    h.add_right _
  unfold wrapInt
  rw [h2]

/-- Splitting `2 ^ bits` at the sign bit. -/
theorem two_pow_eq_half_mul {bits : Nat} (hb : 0 < bits) :
    (2 : Int) ^ bits = 2 ^ (bits - 1) * 2 := by
  conv_lhs => rw [show bits = (bits - 1) + 1 from (Nat.succ_pred_eq_of_pos hb).symm]
  rw [pow_succ]

/-- A value already representable at the target width is unchanged by the
reduction. -/
theorem wrapInt_eq_self {bits : Nat} (hb : 0 < bits) {v : Int}
    (hlo : -(2 ^ (bits - 1)) ≤ v) (hhi : v < 2 ^ (bits - 1)) :
    wrapInt bits v = v := by
  have hsplit := two_pow_eq_half_mul hb
  unfold wrapInt
  rw [Int.emod_eq_of_lt (by linarith) (by linarith)]
  ring

/-- The reduced value lies in the representable range of the target width. -/
theorem wrapInt_bounds {bits : Nat} (hb : 0 < bits) (v : Int) :
    -(2 ^ (bits - 1)) ≤ wrapInt bits v ∧ wrapInt bits v < 2 ^ (bits - 1) := by
  have hsplit := two_pow_eq_half_mul hb
  have hpos : (0 : Int) < 2 ^ bits := by positivity
  unfold wrapInt
  constructor
  · have := Int.emod_nonneg (v + 2 ^ (bits - 1)) (ne_of_gt hpos)
    linarith
  · have := Int.emod_lt_of_pos (v + 2 ^ (bits - 1)) hpos
    linarith

/-! ### Behavior of the kind dispatch -/

/-- On a supported kind the dispatch instantiates the functor at that kind. -/
theorem ApplyIntegerKind_ok {α : Type} {kind : Int} (loc : SourceLocation) (f : Int → α)
    (hk : kind = 1 ∨ kind = 2 ∨ kind = 4 ∨ kind = 8 ∨ kind = 16) :
    ApplyIntegerKind kind loc f = .ok (f kind) := by
  unfold ApplyIntegerKind
  rw [if_pos hk]

/-- On any other kind the dispatch crashes through the terminator. -/
theorem ApplyIntegerKind_crash {α : Type} {kind : Int} (loc : SourceLocation) (f : Int → α)
    (hk : ¬(kind = 1 ∨ kind = 2 ∨ kind = 4 ∨ kind = 8 ∨ kind = 16)) :
    ApplyIntegerKind kind loc f = .error (.unsupportedKind loc kind) := by
  unfold ApplyIntegerKind
  rw [if_neg hk]

/-- A supported kind selects a positive bit width. -/
theorem kind_bits_pos {kind : Int}
    (hk : kind = 1 ∨ kind = 2 ∨ kind = 4 ∨ kind = 8 ∨ kind = 16) :
    0 < (8 * kind).toNat := by
  rcases hk with h | h | h | h | h <;> subst h <;> decide

/-! ### Behavior of the `Ubound` store loop -/

/-- When the store loop completes, it has written only to the `result`
object, and even there only to the backing storage, never to the axis
metadata or the allocation state. -/
theorem uboundLoop_frame (kind : Int) (loc : SourceLocation) (result array : Nat) :
    ∀ fuel i (h h' : Heap), uboundLoop kind loc result array i fuel h = .ok h' →
      (∀ n, n ≠ result → h' n = h n) ∧
      (∀ n, (h' n).dims = (h n).dims ∧ (h' n).allocated = (h n).allocated) := by
  intro fuel
  induction fuel with
  | zero =>
    intro i h h' heq
    simp only [uboundLoop, Except.ok.injEq] at heq
    subst heq
    exact ⟨fun _ _ => rfl, fun _ => ⟨rfl, rfl⟩⟩
  | succ fuel ih =>
    intro i h h' heq
    simp only [uboundLoop] at heq
    by_cases hi : i < (h array).rank
    · rw [if_pos hi] at heq
      cases hap : ApplyIntegerKind kind loc
          (fun k => StoreIntegerAt k (h result) i (((h array).GetDimension i).UpperBound)) with
      | error e => rw [hap] at heq; cases heq
      | ok desc =>
        rw [hap] at heq
        have hdesc : desc.dims = (h result).dims ∧ desc.allocated = (h result).allocated := by
          unfold ApplyIntegerKind at hap
          by_cases hk : kind = 1 ∨ kind = 2 ∨ kind = 4 ∨ kind = 8 ∨ kind = 16
          · rw [if_pos hk] at hap
            cases hap
            exact ⟨rfl, rfl⟩
          · rw [if_neg hk] at hap; cases hap
        obtain ⟨hfr, hmeta⟩ := ih (i + 1) _ h' heq
        refine ⟨fun n hn => ?_, fun n => ?_⟩
        · rw [hfr n hn]
          simp [hn]
        · rcases hmeta n with ⟨hd, ha⟩
          rw [hd, ha]
          by_cases hnr : n = result
          · subst hnr
            simp [hdesc.1, hdesc.2]
          · simp [hnr]
    · rw [if_neg hi] at heq
      cases heq
      exact ⟨fun _ _ => rfl, fun _ => ⟨rfl, rfl⟩⟩

/-- The only crash the store loop can raise is the unsupported-kind crash of
the dispatch, carrying the loop's terminator location and kind tag. -/
theorem uboundLoop_error_shape (kind : Int) (loc : SourceLocation) (result array : Nat) :
    ∀ fuel i (h : Heap) e, uboundLoop kind loc result array i fuel h = .error e →
      e = .unsupportedKind loc kind := by
  intro fuel
  induction fuel with
  | zero => intro i h e heq; exact Except.noConfusion heq
  | succ fuel ih =>
    intro i h e heq
    simp only [uboundLoop] at heq
    by_cases hi : i < (h array).rank
    · rw [if_pos hi] at heq
      by_cases hk : kind = 1 ∨ kind = 2 ∨ kind = 4 ∨ kind = 8 ∨ kind = 16
      · rw [ApplyIntegerKind_ok loc _ hk] at heq
        exact ih (i + 1) _ e heq
      · rw [ApplyIntegerKind_crash loc _ hk] at heq
        cases heq
        rfl
    · rw [if_neg hi] at heq
      cases heq

/-- The terminator location does not influence whether the store loop
completes, nor the heap it produces. -/
theorem uboundLoop_loc_toOption (kind : Int) (loc1 loc2 : SourceLocation) (result array : Nat) :
    ∀ fuel i (h : Heap),
      (uboundLoop kind loc1 result array i fuel h).toOption
        = (uboundLoop kind loc2 result array i fuel h).toOption := by
  intro fuel
  induction fuel with
  | zero => intro i h; rfl
  | succ fuel ih =>
    intro i h
    simp only [uboundLoop]
    by_cases hi : i < (h array).rank
    · rw [if_pos hi, if_pos hi]
      by_cases hk : kind = 1 ∨ kind = 2 ∨ kind = 4 ∨ kind = 8 ∨ kind = 16
      · rw [ApplyIntegerKind_ok loc1 _ hk, ApplyIntegerKind_ok loc2 _ hk]
        exact ih (i + 1) _
      · rw [ApplyIntegerKind_crash loc1 _ hk, ApplyIntegerKind_crash loc2 _ hk]
        rfl
    · rw [if_neg hi, if_neg hi]

/-- Full characterization of a completing store loop on a supported kind
with distinct `result` and `array` objects: it completes, writes
`wrapInt (8 kind) (UpperBound j)` at every position `i ≤ j < rank`, and
changes nothing else. -/
theorem uboundLoop_ok_spec {kind : Int} (loc : SourceLocation) {result array : Nat}
    (hra : result ≠ array)
    (hk : kind = 1 ∨ kind = 2 ∨ kind = 4 ∨ kind = 8 ∨ kind = 16) :
    ∀ fuel i (h : Heap), (h array).rank ≤ i + fuel →
      ∃ h', uboundLoop kind loc result array i fuel h = .ok h' ∧
        (∀ n, n ≠ result → h' n = h n) ∧
        (h' result).dims = (h result).dims ∧
        (h' result).allocated = (h result).allocated ∧
        (∀ j, j < i → (h' result).data j = (h result).data j) ∧
        (∀ j, (h array).rank ≤ j → (h' result).data j = (h result).data j) ∧
        (∀ j, i ≤ j → j < (h array).rank →
          (h' result).data j = wrapInt (8 * kind).toNat (((h array).GetDimension j).UpperBound)) := by
  intro fuel
  induction fuel with
  | zero =>
    intro i h hle
    refine ⟨h, by simp [uboundLoop], fun _ _ => rfl, rfl, rfl, fun _ _ => rfl, fun _ _ => rfl,
      fun j hij hjr => ?_⟩
    omega
  | succ fuel ih =>
    intro i h hle
    by_cases hi : i < (h array).rank
    · set desc := StoreIntegerAt kind (h result) i (((h array).GetDimension i).UpperBound) with hdesc
      set hn : Heap := fun n => if n = result then desc else h n with hhn
      have hna : hn array = h array := by
        simp only [hhn]
        rw [if_neg (Ne.symm hra)]
      have hnr : hn result = desc := by
        simp [hhn]
      obtain ⟨h', hloop, hfr, hdims, halloc, hlow, hhigh, hstore⟩ :=
        ih (i + 1) hn (by rw [hna]; omega)
      rw [hna] at hhigh hstore
      refine ⟨h', ?_, ?_, ?_, ?_, ?_, ?_, ?_⟩
      · simp only [uboundLoop]
        rw [if_pos hi, ApplyIntegerKind_ok loc _ hk]
        exact hloop
      · intro n hn'
        rw [hfr n hn']
        simp only [hhn]
        rw [if_neg hn']
      · rw [hdims, hnr]
        rfl
      · rw [halloc, hnr]
        rfl
      · intro j hj
        rw [hlow j (by omega), hnr]
        simp only [hdesc, StoreIntegerAt]
        rw [if_neg (by omega)]
      · intro j hj
        rw [hhigh j hj, hnr]
        simp only [hdesc, StoreIntegerAt]
        rw [if_neg (by omega)]
      · intro j hij hjr
        rcases Nat.eq_or_lt_of_le hij with hji | hji
        · rw [← hji]
          rw [hlow i (by omega), hnr]
          simp [hdesc, StoreIntegerAt]
        · exact hstore j hji hjr
    · refine ⟨h, ?_, fun _ _ => rfl, rfl, rfl, fun _ _ => rfl, fun _ _ => rfl, fun j hij hjr => ?_⟩
      · simp only [uboundLoop]
        rw [if_neg hi]
      · omega

/-! ### Behavior of the `Shape` store loop -/

/-- Full characterization of the `Shape` store loop on a supported kind: it
completes, writes `wrapInt (8 kind) (Extent j)` at every position
`i ≤ j < rank`, and leaves every other buffer position unchanged. -/
theorem shapeLoop_ok_spec {kind : Int} (h : Heap) (array : Nat)
    (hk : kind = 1 ∨ kind = 2 ∨ kind = 4 ∨ kind = 8 ∨ kind = 16) :
    ∀ fuel i (buf : Nat → Int), (h array).rank ≤ i + fuel →
      ∃ buf', shapeLoop kind h array buf i fuel = .ok buf' ∧
        (∀ j, j < i → buf' j = buf j) ∧
        (∀ j, (h array).rank ≤ j → buf' j = buf j) ∧
        (∀ j, i ≤ j → j < (h array).rank →
          buf' j = wrapInt (8 * kind).toNat (((h array).GetDimension j).Extent)) := by
  intro fuel
  induction fuel with
  | zero =>
    intro i buf hle
    exact ⟨buf, by simp [shapeLoop], fun _ _ => rfl, fun _ _ => rfl, fun j hij hjr => by omega⟩
  | succ fuel ih =>
    intro i buf hle
    by_cases hi : i < (h array).rank
    · set buf1 := RawStoreIntegerAt kind buf i (((h array).GetDimension i).Extent) with hbuf1
      obtain ⟨buf', hloop, hlow, hhigh, hstore⟩ := ih (i + 1) buf1 (by omega)
      refine ⟨buf', ?_, ?_, ?_, ?_⟩
      · simp only [shapeLoop]
        rw [if_pos hi, ApplyIntegerKind_ok shapeTerminatorLoc _ hk]
        exact hloop
      · intro j hj
        rw [hlow j (by omega)]
        simp only [hbuf1, RawStoreIntegerAt]
        rw [if_neg (by omega)]
      · intro j hj
        rw [hhigh j hj]
        simp only [hbuf1, RawStoreIntegerAt]
        rw [if_neg (by omega)]
      · intro j hij hjr
        rcases Nat.eq_or_lt_of_le hij with hji | hji
        · rw [← hji]
          rw [hlow i (by omega)]
          simp [hbuf1, RawStoreIntegerAt]
        · exact hstore j hji hjr
    · refine ⟨buf, ?_, fun _ _ => rfl, fun _ _ => rfl, fun j hij hjr => by omega⟩
      simp only [shapeLoop]
      rw [if_neg hi]

/-! ### The `Size` accumulation -/

/-- Folding the wrapped 64-bit multiplication equals wrapping the exact
product. -/
theorem size_foldl_eq (l : List Dimension) : ∀ acc : Int,
    l.foldl (fun result dimension => wrapInt 64 (result * dimension.Extent)) (wrapInt 64 acc)
      = wrapInt 64 (acc * (l.map Dimension.Extent).prod) := by
  induction l with
  | nil => intro acc; simp
  | cons d l ih =>
    intro acc
    simp only [List.foldl_cons, List.map_cons, List.prod_cons]
    have hcongr : wrapInt 64 (wrapInt 64 acc * d.Extent) = wrapInt 64 (acc * d.Extent) :=
      wrapInt_congr ((wrapInt_modEq 64 acc).mul_right _)
    rw [hcongr, ih (acc * d.Extent), mul_assoc]

/-! ### The intermediate heaps of `Ubound` -/

/-- Establishing the result descriptor does not touch other objects. -/
theorem uboundEstablish_other (h : Heap) {result n : Nat} (array : Nat) (hn : n ≠ result) :
    uboundEstablish h result array n = h n := by
  simp [uboundEstablish, hn]

/-- Setting the result bounds does not touch other objects. -/
theorem uboundSetBounds_other (h : Heap) {result n : Nat} (array : Nat) (hn : n ≠ result) :
    uboundSetBounds h result array n = h n := by
  simp [uboundSetBounds, uboundEstablish, hn]

/-- Allocating the result does not touch other objects. -/
theorem uboundAllocate_other (h2 : Heap) {result n : Nat} (c : Nat → Int) (hn : n ≠ result) :
    uboundAllocate h2 result c n = h2 n := by
  simp [uboundAllocate, hn]

/-- With distinct `result` and `array` objects, the established-and-bounded
result descriptor has the single axis `⟨1, array.rank⟩`. -/
theorem uboundSetBounds_result (h : Heap) {result array : Nat} (hra : result ≠ array) :
    uboundSetBounds h result array result
      = ⟨[⟨1, ((h array).rank : Int)⟩], (h result).data, false⟩ := by
  have har : array ≠ result := Ne.symm hra
  simp [uboundSetBounds, uboundEstablish, har, Dimension.SetBounds]

/-- The heap at the loop entry of `Ubound`, at any object other than
`result`, is still the input heap. -/
theorem ubound_pre_loop_other (h : Heap) {result n : Nat} (array : Nat) (c : Nat → Int)
    (hn : n ≠ result) :
    uboundAllocate (uboundSetBounds h result array) result c n = h n := by
  rw [uboundAllocate_other _ _ hn, uboundSetBounds_other _ _ hn]

/-- With distinct objects, the result descriptor at loop entry: a single
axis `⟨1, array.rank⟩` over the freshly allocated storage. -/
theorem ubound_pre_loop_result (h : Heap) {result array : Nat} (c : Nat → Int)
    (hra : result ≠ array) :
    uboundAllocate (uboundSetBounds h result array) result c result
      = ⟨[⟨1, ((h array).rank : Int)⟩], c, true⟩ := by
  simp [uboundAllocate, uboundSetBounds_result h hra]

/-- The `INTERNAL_CHECK(result.rank() == 1)` of `Ubound` always passes,
whether or not `result` aliases `array`. -/
theorem ubound_check_passes (h : Heap) (result array : Nat) (c : Nat → Int) :
    ((uboundAllocate (uboundSetBounds h result array) result c) result).rank = 1 := by
  simp [uboundAllocate, uboundSetBounds, Descriptor.rank]

/-- Once the allocation has succeeded, no allocation-failure crash can
arise from the remainder of `Ubound`. -/
theorem ubound_tail_no_allocFail (kind : Int) (loc : SourceLocation) (result array : Nat)
    (h3 : Heap) (loc2 : SourceLocation) (stat : Int) :
    (if (h3 result).rank = 1 then
        uboundFinish (uboundLoop kind loc result array 0 ((h3 array).rank) h3) h3
      else ((.error (.checkFail inquiryCheckLoc) : Except Crash Unit), h3)).1
      ≠ .error (.allocFail loc2 stat) := by
  by_cases hrk : (h3 result).rank = 1
  · rw [if_pos hrk]
    cases hl : uboundLoop kind loc result array 0 ((h3 array).rank) h3 with
    | error e =>
      have he := uboundLoop_error_shape kind loc result array ((h3 array).rank) 0 h3 e hl
      subst he
      simp [uboundFinish]
    | ok h4 => simp [uboundFinish]
  · rw [if_neg hrk]
    simp

/-- The remainder of `Ubound` after allocation changes no object other than
`result`. -/
theorem ubound_tail_frame (kind : Int) (loc : SourceLocation) (result array : Nat)
    (h3 : Heap) {n : Nat} (hn : n ≠ result) :
    (if (h3 result).rank = 1 then
        uboundFinish (uboundLoop kind loc result array 0 ((h3 array).rank) h3) h3
      else ((.error (.checkFail inquiryCheckLoc) : Except Crash Unit), h3)).2 n = h3 n := by
  by_cases hrk : (h3 result).rank = 1
  · rw [if_pos hrk]
    cases hl : uboundLoop kind loc result array 0 ((h3 array).rank) h3 with
    | error e => simp [uboundFinish]
    | ok h4 =>
      have hf := (uboundLoop_frame kind loc result array ((h3 array).rank) 0 h3 h4 hl).1 n hn
      simpa [uboundFinish] using hf
  · rw [if_neg hrk]

/-- The remainder of `Ubound` after allocation is insensitive to the
terminator location: same success value, same final heap. -/
theorem ubound_tail_loc (kind : Int) (loc1 loc2 : SourceLocation) (result array : Nat)
    (h3 : Heap) :
    exceptOk (if (h3 result).rank = 1 then
        uboundFinish (uboundLoop kind loc1 result array 0 ((h3 array).rank) h3) h3
      else ((.error (.checkFail inquiryCheckLoc) : Except Crash Unit), h3)).1
      = exceptOk (if (h3 result).rank = 1 then
        uboundFinish (uboundLoop kind loc2 result array 0 ((h3 array).rank) h3) h3
      else ((.error (.checkFail inquiryCheckLoc) : Except Crash Unit), h3)).1 ∧
    (if (h3 result).rank = 1 then
        uboundFinish (uboundLoop kind loc1 result array 0 ((h3 array).rank) h3) h3
      else ((.error (.checkFail inquiryCheckLoc) : Except Crash Unit), h3)).2
      = (if (h3 result).rank = 1 then
        uboundFinish (uboundLoop kind loc2 result array 0 ((h3 array).rank) h3) h3
      else ((.error (.checkFail inquiryCheckLoc) : Except Crash Unit), h3)).2 := by
  by_cases hrk : (h3 result).rank = 1
  · rw [if_pos hrk, if_pos hrk]
    have hopt := uboundLoop_loc_toOption kind loc1 loc2 result array ((h3 array).rank) 0 h3
    cases e1 : uboundLoop kind loc1 result array 0 ((h3 array).rank) h3 with
    | error c1 =>
      cases e2 : uboundLoop kind loc2 result array 0 ((h3 array).rank) h3 with
      | error c2 => exact ⟨rfl, rfl⟩
      | ok h4 =>
        rw [e1, e2] at hopt
        simp [Except.toOption] at hopt
    | ok h4 =>
      cases e2 : uboundLoop kind loc2 result array 0 ((h3 array).rank) h3 with
      | error c2 =>
        rw [e1, e2] at hopt
        simp [Except.toOption] at hopt
      | ok h4' =>
        rw [e1, e2] at hopt
        simp only [Except.toOption, Option.some.injEq] at hopt
        subst hopt
        exact ⟨rfl, rfl⟩
  · rw [if_neg hrk, if_neg hrk]
    exact ⟨rfl, rfl⟩

/-! ### Claims -/

/-- **C2** (confirmed): `RTNAME(Size)` returns the product of the extents of
all axes, accumulated in a 64-bit signed integer starting from 1 (hence
exactly the mathematical product whenever that is representable in 64 bits),
and a rank-0 descriptor yields 1. -/
theorem size_total_product (h : Heap) (array : Nat) (sourceFile : String) (line : Int) :
    (Size h array sourceFile line).1
        = wrapInt 64 (((h array).dims.map Dimension.Extent).prod) ∧
    ((h array).rank = 0 → (Size h array sourceFile line).1 = 1) ∧
    (-(2 ^ 63) ≤ ((h array).dims.map Dimension.Extent).prod →
      ((h array).dims.map Dimension.Extent).prod < 2 ^ 63 →
      (Size h array sourceFile line).1 = ((h array).dims.map Dimension.Extent).prod) := by
  have hone : wrapInt 64 (1 : Int) = 1 :=
    wrapInt_eq_self (by norm_num) (by norm_num) (by norm_num)
  have hmain : (Size h array sourceFile line).1
      = wrapInt 64 (((h array).dims.map Dimension.Extent).prod) := by
    have key := size_foldl_eq (h array).dims 1
    rw [hone, one_mul] at key
    exact key
  refine ⟨hmain, ?_, ?_⟩
  · intro h0
    have hnil : (h array).dims = [] := List.length_eq_zero.mp h0
    rw [hmain, hnil]
    simpa using hone
  · intro hlo hhi
    rw [hmain]
    exact wrapInt_eq_self (by norm_num) hlo hhi

/-- Witness for `size_total_product`: the spec's rank-2 scenario (extents 5
and 3) has total size 15, and a rank-0 descriptor has total size 1. -/
theorem size_total_product_witness :
    (Size wHeap 0 "file.f90" 7).1 = 15 ∧ (Size wHeap 1 "file.f90" 7).1 = 1 := by
  constructor
  · exact (size_total_product wHeap 0 "file.f90" 7).2.2 (by decide) (by decide)
  · exact (size_total_product wHeap 1 "file.f90" 7).2.1 (by decide)

/-- **C3** (confirmed): for every `dim` with `1 ≤ dim ≤ rank`, `LboundDim`
returns the lower bound and `SizeDim` the extent of axis `dim - 1`
(0-based), as 64-bit signed integers. -/
theorem dim_inquiries_in_range (h : Heap) (array : Nat) (dim : Int)
    (sourceFile : String) (line : Int)
    (h1 : 1 ≤ dim) (h2 : dim ≤ ((h array).rank : Int)) :
    (LboundDim h array dim sourceFile line).1
        = .ok (((h array).GetDimension (dim - 1).toNat).LowerBound) ∧
    (SizeDim h array dim sourceFile line).1
        = .ok (((h array).GetDimension (dim - 1).toNat).Extent) := by
  have hc : ¬(dim < 1 ∨ dim > ((h array).rank : Int)) := by omega
  constructor
  · simp only [LboundDim]
    rw [if_neg hc]
  · simp only [SizeDim]
    rw [if_neg hc]

/-- Witness for `dim_inquiries_in_range` on the spec's rank-2 scenario:
axis 2 has lower bound 0 and extent 3. -/
theorem dim_inquiries_in_range_witness :
    (LboundDim wHeap 0 2 "file.f90" 7).1 = .ok 0 ∧
    (SizeDim wHeap 0 2 "file.f90" 7).1 = .ok 3 := by
  have t := dim_inquiries_in_range wHeap 0 2 "file.f90" 7 (by decide) (by decide)
  exact ⟨t.1, t.2⟩

/-- **C4** (confirmed): `LboundDim` and `SizeDim` take the fatal path
exactly when `dim < 1` or `dim > rank`, and the diagnostic carries the
offending `dim`, the array's rank, and the caller's source location; for
`dim` within `[1, rank]` no fatal path is taken. -/
theorem dim_inquiries_fatal_iff (h : Heap) (array : Nat) (dim : Int)
    (sourceFile : String) (line : Int) :
    ((∃ e, (LboundDim h array dim sourceFile line).1 = .error e)
      ↔ (dim < 1 ∨ dim > ((h array).rank : Int))) ∧
    ((dim < 1 ∨ dim > ((h array).rank : Int)) →
      (LboundDim h array dim sourceFile line).1
        = .error (.badDim ⟨sourceFile, line⟩ dim (h array).rank)) ∧
    ((∃ e, (SizeDim h array dim sourceFile line).1 = .error e)
      ↔ (dim < 1 ∨ dim > ((h array).rank : Int))) ∧
    ((dim < 1 ∨ dim > ((h array).rank : Int)) →
      (SizeDim h array dim sourceFile line).1
        = .error (.badDim ⟨sourceFile, line⟩ dim (h array).rank)) := by
  by_cases hc : dim < 1 ∨ dim > ((h array).rank : Int)
  · simp [LboundDim, SizeDim, hc]
  · simp [LboundDim, SizeDim, hc]

/-- Witness for `dim_inquiries_fatal_iff` on the spec's rank-2 scenario:
`dim = 0` and `dim = 3` crash, reporting the dim and the rank 2. -/
theorem dim_inquiries_fatal_iff_witness :
    (LboundDim wHeap 0 0 "file.f90" 7).1 = .error (.badDim ⟨"file.f90", 7⟩ 0 2) ∧
    (SizeDim wHeap 0 3 "file.f90" 7).1 = .error (.badDim ⟨"file.f90", 7⟩ 3 2) := by
  exact ⟨(dim_inquiries_fatal_iff wHeap 0 0 "file.f90" 7).2.1 (by decide),
    (dim_inquiries_fatal_iff wHeap 0 3 "file.f90" 7).2.2.2 (by decide)⟩

/-- **C7** (confirmed; the dispatch itself lives in tools.h and is modelled
from the spec): the kind-polymorphic store dispatch crashes on any kind tag
outside the closed set {1, 2, 4, 8, 16} and never returns an error value to
the inquiry caller; on a supported kind it performs exactly one store of
the value, reduced to that kind's native width, at the requested element,
touching nothing else. -/
theorem apply_integer_kind_dispatch (kind : Int) (loc : SourceLocation)
    (buf : Nat → Int) (desc : Descriptor) (i : Nat) (v : Int) :
    (¬(kind = 1 ∨ kind = 2 ∨ kind = 4 ∨ kind = 8 ∨ kind = 16) →
      ApplyIntegerKind kind loc (fun k => RawStoreIntegerAt k buf i v)
          = .error (.unsupportedKind loc kind) ∧
      ApplyIntegerKind kind loc (fun k => StoreIntegerAt k desc i v)
          = .error (.unsupportedKind loc kind)) ∧
    ((kind = 1 ∨ kind = 2 ∨ kind = 4 ∨ kind = 8 ∨ kind = 16) →
      ApplyIntegerKind kind loc (fun k => RawStoreIntegerAt k buf i v)
          = .ok (RawStoreIntegerAt kind buf i v) ∧
      RawStoreIntegerAt kind buf i v i = wrapInt (8 * kind).toNat v ∧
      (∀ j, j ≠ i → RawStoreIntegerAt kind buf i v j = buf j) ∧
      ApplyIntegerKind kind loc (fun k => StoreIntegerAt k desc i v)
          = .ok (StoreIntegerAt kind desc i v) ∧
      (StoreIntegerAt kind desc i v).data i = wrapInt (8 * kind).toNat v ∧
      (∀ j, j ≠ i → (StoreIntegerAt kind desc i v).data j = desc.data j) ∧
      (StoreIntegerAt kind desc i v).dims = desc.dims ∧
      (StoreIntegerAt kind desc i v).allocated = desc.allocated) := by
  constructor
  · intro hk
    exact ⟨ApplyIntegerKind_crash loc _ hk, ApplyIntegerKind_crash loc _ hk⟩
  · intro hk
    refine ⟨ApplyIntegerKind_ok loc _ hk, by simp [RawStoreIntegerAt],
      fun j hj => by simp [RawStoreIntegerAt, hj], ApplyIntegerKind_ok loc _ hk,
      by simp [StoreIntegerAt], fun j hj => by simp [StoreIntegerAt, hj], rfl, rfl⟩

/-- Witness for `apply_integer_kind_dispatch`: kind tag 3 crashes; kind 2
stores 70000 as its 16-bit reduction 4464. -/
theorem apply_integer_kind_dispatch_witness :
    ApplyIntegerKind 3 ⟨"file.f90", 7⟩ (fun k => RawStoreIntegerAt k (fun _ => 0) 0 1)
        = .error (.unsupportedKind ⟨"file.f90", 7⟩ 3) ∧
    ApplyIntegerKind 2 ⟨"file.f90", 7⟩ (fun k => RawStoreIntegerAt k (fun _ => 0) 0 70000)
        = .ok (RawStoreIntegerAt 2 (fun _ => 0) 0 70000) ∧
    RawStoreIntegerAt 2 (fun _ => 0) 0 70000 0 = 4464 := by
  have t1 := (apply_integer_kind_dispatch 3 ⟨"file.f90", 7⟩ (fun _ => 0) emptyDesc 0 1).1
    (by decide)
  have t2 := (apply_integer_kind_dispatch 2 ⟨"file.f90", 7⟩ (fun _ => 0) emptyDesc 0 70000).2
    (by decide)
  exact ⟨t1.1, t2.1, by decide⟩

/-- **C10** (confirmed): the raw kind-polymorphic store truncates without
any range check: for each supported kind of byte width `w < 8` (1, 2 or 4),
the value read back at the stored element is `v` reduced modulo `2^(8w)`
into the two's-complement range; it equals `v` exactly when `v` is
representable at that width, other positions are untouched, and no error is
ever reported. -/
theorem raw_store_truncates (kind : Int) (buf : Nat → Int) (i : Nat) (v : Int)
    (hk : kind = 1 ∨ kind = 2 ∨ kind = 4) :
    RawStoreIntegerAt kind buf i v i ≡ v [ZMOD (2 : Int) ^ (8 * kind).toNat] ∧
    -(2 ^ ((8 * kind).toNat - 1)) ≤ RawStoreIntegerAt kind buf i v i ∧
    RawStoreIntegerAt kind buf i v i < 2 ^ ((8 * kind).toNat - 1) ∧
    (∀ j, j ≠ i → RawStoreIntegerAt kind buf i v j = buf j) ∧
    (-(2 ^ ((8 * kind).toNat - 1)) ≤ v → v < 2 ^ ((8 * kind).toNat - 1) →
      RawStoreIntegerAt kind buf i v i = v) := by
  have hread : RawStoreIntegerAt kind buf i v i = wrapInt (8 * kind).toNat v := by
    simp [RawStoreIntegerAt]
  have hb : 0 < (8 * kind).toNat := by
    rcases hk with hk | hk | hk <;> subst hk <;> decide
  refine ⟨?_, ?_, ?_, fun j hj => by simp [RawStoreIntegerAt, hj], fun hlo hhi => ?_⟩
  · rw [hread]
    exact wrapInt_modEq _ v
  · rw [hread]
    exact (wrapInt_bounds hb v).1
  · rw [hread]
    exact (wrapInt_bounds hb v).2
  · rw [hread]
    exact wrapInt_eq_self hb hlo hhi

/-- Witness for `raw_store_truncates`: a 1-byte store of 300 reads back as
44 = 300 mod 256. -/
theorem raw_store_truncates_witness :
    RawStoreIntegerAt 1 (fun _ => 0) 0 300 0 ≡ 300 [ZMOD (2 : Int) ^ 8] ∧
    RawStoreIntegerAt 1 (fun _ => 0) 0 300 0 = 44 := by
  have t := raw_store_truncates 1 (fun _ => 0) 0 300 (Or.inl rfl)
  exact ⟨t.1, by decide⟩

/-- **C6** (confirmed): `Ubound` takes an allocation-failure fatal path if
and only if the external allocator returns a non-zero status, and in that
case the diagnostic carries exactly that status code and the caller's
source location; with status 0 no allocation-failure crash occurs. -/
theorem ubound_alloc_failure_fatal (h : Heap) (result array : Nat) (kind : Int)
    (sourceFile : String) (line : Int) (allocStat : Int) (allocContents : Nat → Int) :
    ((∃ loc stat, (Ubound h result array kind sourceFile line allocStat allocContents).1
        = .error (.allocFail loc stat)) ↔ allocStat ≠ 0) ∧
    (allocStat ≠ 0 →
      (Ubound h result array kind sourceFile line allocStat allocContents).1
        = .error (.allocFail ⟨sourceFile, line⟩ allocStat)) := by
  by_cases hstat : allocStat ≠ 0
  · have heq : (Ubound h result array kind sourceFile line allocStat allocContents).1
        = .error (.allocFail ⟨sourceFile, line⟩ allocStat) := by
      simp only [Ubound]
      rw [if_pos hstat]
    exact ⟨⟨fun _ => hstat, fun _ => ⟨⟨sourceFile, line⟩, allocStat, heq⟩⟩, fun _ => heq⟩
  · refine ⟨⟨?_, fun hcon => absurd hcon hstat⟩, fun hcon => absurd hcon hstat⟩
    rintro ⟨loc, stat, hbad⟩
    simp only [Ubound] at hbad
    rw [if_neg hstat] at hbad
    exact absurd hbad
      (ubound_tail_no_allocFail kind ⟨sourceFile, line⟩ result array _ loc stat)

/-- Witness for `ubound_alloc_failure_fatal`: allocation status 12 produces
the allocation-failure crash carrying 12. -/
theorem ubound_alloc_failure_fatal_witness :
    (Ubound wHeap 1 0 8 "file.f90" 7 12 (fun _ => 0)).1
      = .error (.allocFail ⟨"file.f90", 7⟩ 12) := by
  exact (ubound_alloc_failure_fatal wHeap 1 0 8 "file.f90" 7 12 (fun _ => 0)).2 (by decide)

/-- **C9** (confirmed): the `sourceFile`/`line` arguments have no effect on
any computed result: across two calls differing only in them, the success
value and the final heap of `LboundDim`, `Size`, `SizeDim` and `Ubound`
coincide. -/
theorem source_location_no_effect (h : Heap) (result array : Nat) (dim kind : Int)
    (f1 f2 : String) (l1 l2 : Int) (allocStat : Int) (allocContents : Nat → Int) :
    exceptOk (LboundDim h array dim f1 l1).1 = exceptOk (LboundDim h array dim f2 l2).1 ∧
    (LboundDim h array dim f1 l1).2 = (LboundDim h array dim f2 l2).2 ∧
    Size h array f1 l1 = Size h array f2 l2 ∧
    exceptOk (SizeDim h array dim f1 l1).1 = exceptOk (SizeDim h array dim f2 l2).1 ∧
    (SizeDim h array dim f1 l1).2 = (SizeDim h array dim f2 l2).2 ∧
    exceptOk (Ubound h result array kind f1 l1 allocStat allocContents).1
      = exceptOk (Ubound h result array kind f2 l2 allocStat allocContents).1 ∧
    (Ubound h result array kind f1 l1 allocStat allocContents).2
      = (Ubound h result array kind f2 l2 allocStat allocContents).2 := by
  refine ⟨?_, ?_, rfl, ?_, ?_, ?_, ?_⟩
  · by_cases hc : dim < 1 ∨ dim > ((h array).rank : Int) <;>
      simp [LboundDim, hc, exceptOk]
  · by_cases hc : dim < 1 ∨ dim > ((h array).rank : Int) <;>
      simp [LboundDim, hc]
  · by_cases hc : dim < 1 ∨ dim > ((h array).rank : Int) <;>
      simp [SizeDim, hc, exceptOk]
  · by_cases hc : dim < 1 ∨ dim > ((h array).rank : Int) <;>
      simp [SizeDim, hc]
  · by_cases hstat : allocStat ≠ 0
    · simp only [Ubound]
      simp only [if_pos hstat]
      rfl
    · simp only [Ubound]
      simp only [if_neg hstat]
      exact (ubound_tail_loc kind ⟨f1, l1⟩ ⟨f2, l2⟩ result array _).1
  · by_cases hstat : allocStat ≠ 0
    · simp only [Ubound]
      simp only [if_pos hstat]
    · simp only [Ubound]
      simp only [if_neg hstat]
      exact (ubound_tail_loc kind ⟨f1, l1⟩ ⟨f2, l2⟩ result array _).2

/-- **C8** (confirmed): every entry point leaves the input array descriptor
unchanged (rank, per-axis lower bounds and extents, allocation state) and
never frees it; `LboundDim`, `Size`, `SizeDim` and `Shape` leave the whole
heap untouched, and `Ubound` (with its distinct result object) writes only
to that result object. -/
theorem inquiry_preserves_input (h : Heap) (result array : Nat) (dim kind : Int)
    (sourceFile : String) (line : Int) (allocStat : Int) (allocContents : Nat → Int)
    (resultBuf : Nat → Int) (hra : result ≠ array) :
    (LboundDim h array dim sourceFile line).2 = h ∧
    (Size h array sourceFile line).2 = h ∧
    (SizeDim h array dim sourceFile line).2 = h ∧
    (Shape resultBuf h array kind).2 = h ∧
    (Ubound h result array kind sourceFile line allocStat allocContents).2 array = h array := by
  have har : array ≠ result := Ne.symm hra
  refine ⟨?_, rfl, ?_, ?_, ?_⟩
  · by_cases hc : dim < 1 ∨ dim > ((h array).rank : Int) <;> simp [LboundDim, hc]
  · by_cases hc : dim < 1 ∨ dim > ((h array).rank : Int) <;> simp [SizeDim, hc]
  · by_cases hc : (h array).rank ≤ maxRank <;> simp [Shape, hc]
  · by_cases hstat : allocStat ≠ 0
    · simp only [Ubound]
      simp only [if_pos hstat]
      exact uboundSetBounds_other h array har
    · simp only [Ubound]
      simp only [if_neg hstat]
      rw [ubound_tail_frame kind ⟨sourceFile, line⟩ result array _ har]
      exact ubound_pre_loop_other h array allocContents har

/-- Witness for `inquiry_preserves_input`: after `Ubound` into the distinct
result object 1, the input array object 0 is exactly as before. -/
theorem inquiry_preserves_input_witness :
    (Ubound wHeap 1 0 8 "file.f90" 7 0 (fun _ => 0)).2 0 = wHeap 0 := by
  exact (inquiry_preserves_input wHeap 1 0 2 8 "file.f90" 7 0 (fun _ => 0) (fun _ => 0)
    (by decide)).2.2.2.2

/-- **C1** (counterexample to the claim as stated): the claim quantifies
over every kind tag and asserts the stored element equals
`lower + extent - 1` exactly.  Both parts fail: on a rank-1 input, kind
tag 3 makes `Ubound` crash instead of producing any result descriptor; and
with kind 1 and axis 1000..1004 the stored element reads back as the 8-bit
reduction -20, not the upper bound 1004 = 1000 + 5 - 1. -/
theorem ubound_claim_cex :
    (Ubound cexHeap1 1 0 3 "file.f90" 7 0 (fun _ => 0)).1
        = .error (.unsupportedKind ⟨"file.f90", 7⟩ 3) ∧
    ((Ubound cexHeap1 1 0 1 "file.f90" 7 0 (fun _ => 0)).2 1).data 0 = -20 ∧
    ((-20 : Int) ≠ 1000 + 5 - 1) := by
  refine ⟨rfl, by decide, by decide⟩

/-- **C1** (amended): for every input descriptor, every *recognized* kind
tag (1, 2, 4, 8 or 16), a result object distinct from the input, and a
successful allocation, `Ubound` produces a rank-1 result descriptor with
lower bound 1 and length equal to the input's rank `r`, whose element at
0-based position `i` equals the axis-(i+1) upper bound
`lower + extent - 1` *reduced to the kind's width* — hence exactly
`lower + extent - 1` whenever that value is representable at that width
(so a zero-extent axis yields `lower - 1` and a rank-0 input yields a
length-0 result). -/
theorem ubound_postconditions (h : Heap) (result array : Nat) (kind : Int)
    (sourceFile : String) (line : Int) (allocContents : Nat → Int)
    (hra : result ≠ array)
    (hk : kind = 1 ∨ kind = 2 ∨ kind = 4 ∨ kind = 8 ∨ kind = 16) :
    (Ubound h result array kind sourceFile line 0 allocContents).1 = .ok () ∧
    ((Ubound h result array kind sourceFile line 0 allocContents).2 result).rank = 1 ∧
    (((Ubound h result array kind sourceFile line 0 allocContents).2 result).GetDimension
        0).LowerBound = 1 ∧
    (((Ubound h result array kind sourceFile line 0 allocContents).2 result).GetDimension
        0).Extent = ((h array).rank : Int) ∧
    (∀ i, i < (h array).rank →
      ((Ubound h result array kind sourceFile line 0 allocContents).2 result).data i
        = wrapInt (8 * kind).toNat (((h array).GetDimension i).UpperBound)) ∧
    (∀ i, i < (h array).rank →
      -(2 ^ ((8 * kind).toNat - 1)) ≤ ((h array).GetDimension i).UpperBound →
      ((h array).GetDimension i).UpperBound < 2 ^ ((8 * kind).toNat - 1) →
      ((Ubound h result array kind sourceFile line 0 allocContents).2 result).data i
        = ((h array).GetDimension i).UpperBound) := by
  have har : array ≠ result := Ne.symm hra
  have hb := kind_bits_pos hk
  set h3 : Heap := uboundAllocate (uboundSetBounds h result array) result allocContents with hh3
  have h3a : h3 array = h array := ubound_pre_loop_other h array allocContents har
  have h3r : h3 result = ⟨[⟨1, ((h array).rank : Int)⟩], allocContents, true⟩ :=
    ubound_pre_loop_result h allocContents hra
  have hrk : (h3 result).rank = 1 := by
    rw [h3r]
    rfl
  obtain ⟨h4, hloop, hfr, hdims, halloc, hlow, hhigh, hstore⟩ :=
    uboundLoop_ok_spec ⟨sourceFile, line⟩ hra hk ((h3 array).rank) 0 h3 (by omega)
  rw [h3a] at hstore
  have hub : Ubound h result array kind sourceFile line 0 allocContents = (.ok (), h4) := by
    simp only [Ubound]
    rw [if_neg (by decide : ¬((0 : Int) ≠ 0))]
    rw [← hh3, if_pos hrk, hloop]
    rfl
  have hdims4 : (h4 result).dims = [⟨1, ((h array).rank : Int)⟩] := by
    rw [hdims, h3r]
  refine ⟨?_, ?_, ?_, ?_, ?_, ?_⟩
  · rw [hub]
  · rw [hub]
    show (h4 result).dims.length = 1
    rw [hdims4]
    rfl
  · rw [hub]
    show ((h4 result).dims.getD 0 ⟨0, 0⟩).LowerBound = 1
    rw [hdims4]
    rfl
  · rw [hub]
    show ((h4 result).dims.getD 0 ⟨0, 0⟩).Extent = ((h array).rank : Int)
    rw [hdims4]
    rfl
  · intro i hi
    rw [hub]
    show (h4 result).data i = _
    rw [hstore i (by omega) hi]
  · intro i hi hlo hhi
    rw [hub]
    show (h4 result).data i = _
    rw [hstore i (by omega) hi]
    exact wrapInt_eq_self hb hlo hhi

/-- Witness for `ubound_postconditions` on the spec's rank-2 scenario with
kind 8: rank-1 result, lower bound 1, length 2, elements 5 and 2. -/
theorem ubound_postconditions_witness :
    (Ubound wHeap 1 0 8 "file.f90" 3 0 (fun _ => 0)).1 = .ok () ∧
    ((Ubound wHeap 1 0 8 "file.f90" 3 0 (fun _ => 0)).2 1).rank = 1 ∧
    (((Ubound wHeap 1 0 8 "file.f90" 3 0 (fun _ => 0)).2 1).GetDimension 0).LowerBound = 1 ∧
    (((Ubound wHeap 1 0 8 "file.f90" 3 0 (fun _ => 0)).2 1).GetDimension 0).Extent = 2 ∧
    ((Ubound wHeap 1 0 8 "file.f90" 3 0 (fun _ => 0)).2 1).data 0 = 5 ∧
    ((Ubound wHeap 1 0 8 "file.f90" 3 0 (fun _ => 0)).2 1).data 1 = 2 := by
  obtain ⟨hok, hrank, hlb, hext, hdata, hfit⟩ :=
    ubound_postconditions wHeap 1 0 8 "file.f90" 3 (fun _ => 0) (by decide)
      (Or.inr (Or.inr (Or.inr (Or.inl rfl))))
  refine ⟨hok, hrank, hlb, hext, ?_, ?_⟩
  · rw [hfit 0 (by decide) (by decide) (by decide)]
    decide
  · rw [hfit 1 (by decide) (by decide) (by decide)]
    decide

/-- **C5** (counterexample to the claim as stated): the claim asserts the
written element equals the axis extent exactly, for every recognized kind;
but with kind 1 and extent 300 the element written is the 8-bit reduction
44, not 300. -/
theorem shape_claim_cex :
    bufAt (Shape (fun _ => 7) cexHeap2 0 1).1 0 = some 44 ∧ ((44 : Int) ≠ 300) := by
  exact ⟨by decide, by decide⟩

/-- **C5** (amended): for every descriptor within the `maxRank` invariant
and every recognized kind tag, `Shape` completes without allocating and
without touching the heap, writing exactly the first `r` buffer positions:
position `i` receives the axis-(i+1) extent *reduced to the kind's width*
(hence exactly the extent whenever it is representable at that width), and
every position at index `r` and beyond keeps its previous contents. -/
theorem shape_postconditions (h : Heap) (array : Nat) (kind : Int) (resultBuf : Nat → Int)
    (hrank : (h array).rank ≤ maxRank)
    (hk : kind = 1 ∨ kind = 2 ∨ kind = 4 ∨ kind = 8 ∨ kind = 16) :
    (Shape resultBuf h array kind).2 = h ∧
    ∃ buf', (Shape resultBuf h array kind).1 = .ok buf' ∧
      (∀ j, (h array).rank ≤ j → buf' j = resultBuf j) ∧
      (∀ j, j < (h array).rank →
        buf' j = wrapInt (8 * kind).toNat (((h array).GetDimension j).Extent)) ∧
      (∀ j, j < (h array).rank →
        -(2 ^ ((8 * kind).toNat - 1)) ≤ ((h array).GetDimension j).Extent →
        ((h array).GetDimension j).Extent < 2 ^ ((8 * kind).toNat - 1) →
        buf' j = ((h array).GetDimension j).Extent) := by
  have hb := kind_bits_pos hk
  obtain ⟨buf', hloop, hlow, hhigh, hstore⟩ :=
    shapeLoop_ok_spec h array hk ((h array).rank) 0 resultBuf (by omega)
  constructor
  · simp [Shape, hrank]
  · refine ⟨buf', ?_, fun j hj => hhigh j hj, fun j hj => hstore j (by omega) hj, ?_⟩
    · simp only [Shape]
      rw [if_pos hrank]
      exact hloop
    · intro j hj hlo hhi
      rw [hstore j (by omega) hj]
      exact wrapInt_eq_self hb hlo hhi

/-- Witness for `shape_postconditions` on the spec's rank-2 scenario with
kind 4: the buffer receives 5 and 3, position 2 keeps its old value 9, and
the heap is untouched. -/
theorem shape_postconditions_witness :
    bufAt (Shape (fun _ => 9) wHeap 0 4).1 0 = some 5 ∧
    bufAt (Shape (fun _ => 9) wHeap 0 4).1 1 = some 3 ∧
    bufAt (Shape (fun _ => 9) wHeap 0 4).1 2 = some 9 ∧
    (Shape (fun _ => 9) wHeap 0 4).2 = wHeap := by
  obtain ⟨hheap, buf', hok, hhigh, hstore, hfit⟩ :=
    shape_postconditions wHeap 0 4 (fun _ => 9) (by decide)
      (Or.inr (Or.inr (Or.inl rfl)))
  refine ⟨?_, ?_, ?_, hheap⟩
  · rw [hok]
    simp only [bufAt]
    rw [hstore 0 (by decide)]
    decide
  · rw [hok]
    simp only [bufAt]
    rw [hstore 1 (by decide)]
    decide
  · rw [hok]
    simp only [bufAt]
    rw [hhigh 2 (by decide)]

end Fortran.runtime
